import Mathlib

/-!
# Verification of the structural-scanner / merger / path-resolver / build-runner core

Shallow embedding of the TypeScript core of this repository:

* `src/services/javaParser.ts` — structural scanner (`extractMethods`),
  directive extraction and merge (`extractImports`, `mergeImports`);
* `src/services/pathResolver.ts` — source→test path mapping
  (`convertToTestPath`, `resolveTestPath`);
* `src/ui/sidebarProvider.ts` — target-name validation
  (`_validateTestClassName`), command construction (`_runTest`), the
  process close handler of `_executeCommand`, and the result classifier
  (`_parseTestResult`).

Strings are modelled as `List Char` (JS strings are sequences of code
units; all inputs here are ASCII-level text).  `extractMethods` splits the
source on `'\n'` and applies all of its regular expressions to single
lines, so for the scanner the text is modelled as its list of lines
(`List (List Char)`).  `extractImports`, by contrast, runs a `gm`-flag
regex over the whole string — its matches are anchored at line starts but
their `\s` classes may consume newlines and span lines — and
`mergeImports` splits on `'\n'` and re-joins, so the merge functions work
on the full text, newlines included, with `split`/`join` modelled
explicitly.  JavaScript regular expressions used by the source are
hand-compiled to character-level matchers, with the relevant greedy
matching and backtracking behaviour reproduced where it matters.
-/

namespace TestAutoEvermation

/-- A JS string, as a list of characters. -/
abbrev Str := List Char

/-- A text already split into lines (the result of `split('\n')`). -/
abbrev Text := List Str

/-- JS `\s` (the ASCII part: space, tab, newline, CR, vertical tab, form feed). -/
def isSpaceChar (c : Char) : Bool :=
  c = ' ' || c = '\t' || c = '\n' || c = '\r' || c = '\x0b' || c = '\x0c'

/-- ASCII letter. -/
def isAsciiAlpha (c : Char) : Bool :=
  ('a' ≤ c && c ≤ 'z') || ('A' ≤ c && c ≤ 'Z')

/-- ASCII digit. -/
def isAsciiDigit (c : Char) : Bool :=
  '0' ≤ c && c ≤ '9'

/-- JS `\w` = `[A-Za-z0-9_]`. -/
def isWordChar (c : Char) : Bool :=
  isAsciiAlpha c || isAsciiDigit c || c = '_'

/-- A character of the character class `[\w.]`. -/
def isWordDot (c : Char) : Bool :=
  isWordChar c || c = '.'

/-- `l` begins with `pre` (JS `startsWith`). -/
def startsWithL (pre l : Str) : Bool :=
  decide (l.take pre.length = pre)

/-- `l` ends with `suf` (JS `endsWith`). -/
def endsWithL (suf l : Str) : Bool :=
  decide (l.drop (l.length - suf.length) = suf)

/-- JS `String.prototype.includes`: `needle` occurs contiguously in `hay`. -/
def containsSub (hay needle : Str) : Bool :=
  match hay with
  | [] => needle.isEmpty
  | _ :: t => startsWithL needle hay || containsSub t needle

/-- JS `toLowerCase` on ASCII text. -/
def toLowerL (l : Str) : Str :=
  l.map Char.toLower

/-- JS `trim`: strip `\s` from both ends. -/
def trimL (l : Str) : Str :=
  ((l.dropWhile isSpaceChar).reverse.dropWhile isSpaceChar).reverse

/-- Number of occurrences of character `c` (JS `(line.match(/c/g) || []).length`). -/
def countChar (c : Char) (l : Str) : Nat :=
  l.countP (· = c)

/- ### Result classifier — `_parseTestResult` (src/ui/sidebarProvider.ts:1836-1859) -/

/-- The recognized build tools (`'maven' | 'gradle'`); `Option BuildTool`
models the nullable parameter. -/
inductive BuildTool
  | gradle
  | maven
deriving DecidableEq

/-- Model of `_parseTestResult(output, buildTool)`: lower-case the combined
output and apply the per-tool keyword table. -/
def parseTestResult (output : Str) (buildTool : Option BuildTool) : Bool :=
  let lowerOutput := toLowerL output
  match buildTool with
  | some .gradle =>
    if containsSub lowerOutput "build successful".toList ||
        (containsSub lowerOutput "test".toList &&
         !containsSub lowerOutput "failed".toList &&
         !containsSub lowerOutput "failure".toList) then
      true
    else
      !containsSub lowerOutput "build failed".toList &&
      !containsSub lowerOutput "test failed".toList &&
      !containsSub lowerOutput "failures:".toList
  | some .maven =>
    if containsSub lowerOutput "build success".toList then
      true
    else
      !containsSub lowerOutput "build failure".toList &&
      !containsSub lowerOutput "tests run:".toList &&
      !containsSub lowerOutput "failures:".toList
  | none =>
    !containsSub lowerOutput "fail".toList &&
    !containsSub lowerOutput "error".toList

/-- A negative signal of tool A (gradle) is present in the lower-cased output. -/
def gradleNegative (lowerOutput : Str) : Bool :=
  containsSub lowerOutput "build failed".toList ||
  containsSub lowerOutput "test failed".toList ||
  containsSub lowerOutput "failures:".toList

/-- The positive-signal condition of tool A (gradle). -/
def gradlePositive (lowerOutput : Str) : Bool :=
  containsSub lowerOutput "build successful".toList ||
  (containsSub lowerOutput "test".toList &&
   !containsSub lowerOutput "failed".toList &&
   !containsSub lowerOutput "failure".toList)

/-- A negative signal of tool B (maven) is present in the lower-cased output. -/
def mavenNegative (lowerOutput : Str) : Bool :=
  containsSub lowerOutput "build failure".toList ||
  containsSub lowerOutput "tests run:".toList ||
  containsSub lowerOutput "failures:".toList

/-- The positive-signal condition of tool B (maven). -/
def mavenPositive (lowerOutput : Str) : Bool :=
  containsSub lowerOutput "build success".toList

/- ### Process-runner close handler — `_executeCommand` (src/ui/sidebarProvider.ts:1818-1826) -/

/-- Model of the `close` handler of `_executeCommand`: given the exit code and
the collected `stdout`/`stderr`, either reject (`Except.error`) with a
launch-failure message or resolve (`Except.ok`) with the combined output. -/
def closeHandler (code : Int) (stdout stderr : Str) : Except Str Str :=
  if code ≠ 0 ∧ stdout = [] ∧ stderr = [] then
    .error ("Command exited with code ".toList ++ (toString code).toList)
  else
    .ok (stdout ++ '\n' :: stderr)

/- ### Path resolver — `PathResolver` (src/services/pathResolver.ts) -/

/-- JS `replace(/\\/g, '/')`: replace every backslash by a forward slash. -/
def replaceAllChar (a b : Char) (l : Str) : Str :=
  l.map (fun c => if c = a then b else c)

/-- JS `String.prototype.replace` with a plain-string pattern: replace the
first occurrence of `pat` by `repl` (identity when `pat` does not occur). -/
def replaceFirstSub (pat repl : Str) : Str → Str
  | [] => if pat.isEmpty then repl else []
  | c :: t =>
    if startsWithL pat (c :: t) then repl ++ (c :: t).drop pat.length
    else c :: replaceFirstSub pat repl t

/-- Split a list at the last occurrence of `c` (`none` when `c` is absent):
`splitAtLast c l = some (a, b)` with `l = a ++ c :: b` and `c ∉ b`. -/
def splitAtLast (c : Char) : Str → Option (Str × Str)
  | [] => none
  | x :: t =>
    match splitAtLast c t with
    | some (a, b) => some (x :: a, b)
    | none => if x = c then some ([], t) else none

/-- The `dir`/`base`/`name`/`ext` fields of Node's `path.parse`, for the
relative forward-slash paths this resolver is fed. -/
structure ParsedPath where
  dir : Str
  base : Str
  name : Str
  ext : Str

/-- Node `path.parse` on a relative forward-slash path. -/
def parsePath (p : Str) : ParsedPath :=
  let (dir, base) :=
    match splitAtLast '/' p with
    | some (d, b) => (d, b)
    | none => ([], p)
  let (name, ext) :=
    match splitAtLast '.' base with
    | some (n, e) => if n = [] then (base, ([] : Str)) else (n, '.' :: e)
    | none => (base, [])
  ⟨dir, base, name, ext⟩

/-- Node `path.join` restricted to its use here: empty segments are skipped
and the rest are joined with `/` (all inputs are already normalized). -/
def joinPath (segs : List Str) : Str :=
  List.intercalate ['/'] (segs.filter (fun s => !s.isEmpty))

/-- Model of `PathResolver.convertToTestPath` (src/services/pathResolver.ts:53-75). -/
def convertToTestPath (relativePath : Str) : Str :=
  let normalizedPath := replaceAllChar '\\' '/' relativePath
  if containsSub normalizedPath "src/main/java".toList then
    replaceFirstSub "src/main/java".toList "src/test/java".toList normalizedPath
  else if containsSub normalizedPath "main/java".toList then
    replaceFirstSub "main/java".toList "test/java".toList normalizedPath
  else if containsSub normalizedPath "src/main/kotlin".toList then
    replaceFirstSub "src/main/kotlin".toList "src/test/kotlin".toList normalizedPath
  else
    let parsed := parsePath normalizedPath
    joinPath ["src".toList, "test".toList, "java".toList, parsed.dir, parsed.base]

/-- Model of the pure core of `PathResolver.resolveTestPath`
(src/services/pathResolver.ts:23-48): the workspace-relative source path and
the optional server-suggested path in, the workspace-relative test path out. -/
def resolveTestPath (relativePath : Str) (suggestedPath : Option Str) : Str :=
  match suggestedPath with
  | some p => p
  | none =>
    let testPath := convertToTestPath relativePath
    let parsed := parsePath testPath
    if endsWithL "Test".toList parsed.name then testPath
    else joinPath [parsed.dir, parsed.name ++ "Test".toList ++ parsed.ext]

/- ### Target-name validation and command construction —
`_validateTestClassName` / `_runTest` (src/ui/sidebarProvider.ts:1652-1691) -/

/-- `[a-zA-Z_$]`, the first character of an identifier segment. -/
def identStart (c : Char) : Bool :=
  isAsciiAlpha c || c = '_' || c = '$'

/-- `[a-zA-Z0-9_$]`, a continuation character of an identifier segment. -/
def identRest (c : Char) : Bool :=
  identStart c || isAsciiDigit c

/-- Character-level compilation of the class-name regex
`^[a-zA-Z_$][a-zA-Z0-9_$]*(\.[a-zA-Z_$][a-zA-Z0-9_$]*)*\*?$`.  The character
classes of the regex are pairwise disjoint from `.` and `*`, so the greedy
match is deterministic and compiles to this two-state scanner: with the flag
`true` the scanner expects the first character of an identifier segment, with
the flag `false` it is inside a segment (at least one character consumed). -/
def scanName : Bool → Str → Bool
  | true, [] => false
  | false, [] => true
  | true, c :: t => identStart c && scanName false t
  | false, c :: t =>
    if identRest c then scanName false t
    else if c = '.' then scanName true t
    else if c = '*' then t.isEmpty
    else false

/-- Model of `_validateTestClassName` (src/ui/sidebarProvider.ts:1652-1657):
the Java-class-name regex plus the 256-character length cap. -/
def validateTestClassName (name : Str) : Bool :=
  scanName true name && decide (name.length ≤ 256)

/-- A constructed build invocation: the command and its structural argument
list (passed to `spawn` without any shell). -/
structure Invocation where
  command : Str
  args : List Str
deriving DecidableEq

/-- Model of the command-construction part of `_runTest`
(src/ui/sidebarProvider.ts:1659-1691): validation first, then the per-tool
command and argument list; `Except.error` means the run was refused before
any process was launched. -/
def runTestCommand (testClassName : Str) (buildTool : Option BuildTool)
    (isWin32 : Bool) : Except Str Invocation :=
  if !validateTestClassName testClassName then
    .error "Invalid test class name. Only valid Java class names are allowed.".toList
  else
    match buildTool with
    | some .gradle =>
      .ok ⟨(if isWin32 then "gradlew.bat" else "./gradlew").toList,
        ["test".toList, "--tests".toList, testClassName, "--info".toList]⟩
    | some .maven =>
      .ok ⟨"mvn".toList, ["test".toList, "-Dtest=".toList ++ testClassName]⟩
    | none => .error "No Maven or Gradle build file found".toList

/- ### Directive extraction and merge — `extractImports` / `mergeImports`
(src/services/javaParser.ts:234-278).  `extractImports` runs a `gm`-flag
regex over the whole string, so its matches are anchored at line starts but
their whitespace (`\s`, which includes `'\n'`) may span line breaks;
`mergeImports` splits the text on `'\n'`, splices lines, and re-joins.
The merge functions therefore work on the full text (`Str`, newlines
included). -/

/-- JS `split('\n')`: the list of lines of a text (an empty text gives one
empty line; a trailing newline gives a trailing empty line). -/
def splitLines : Str → List Str
  | [] => [[]]
  | c :: t =>
    if c = '\n' then [] :: splitLines t
    else
      match splitLines t with
      | l :: ls => (c :: l) :: ls
      | [] => [[c]]

/-- JS `join('\n')`: re-join lines with a newline between them. -/
def joinLines : List Str → Str
  | [] => []
  | [l] => l
  | l :: ls => l ++ '\n' :: joinLines ls

/-- The `\s*;` tail of the import regex: optional whitespace (newlines
included), then `;`; returns the remainder after the `;`. -/
def expectSemiR (l : Str) : Option Str :=
  match l.dropWhile isSpaceChar with
  | ';' :: rest => some rest
  | _ => none

/-- Capture of `([\w.]+(?:\.\*)?)\s*;` at the start of `rest2`, returning
the captured name and the remainder after the consumed match: the greedy
`[\w.]+` run is maximal and can only ever give back exactly one trailing `.`
to the optional `\.\*` group (`*` is not in `[\w.]`, and any deeper backtrack
leaves a `[\w.]` character where `\s*;` needs `;`). -/
def captureFromR (rest2 : Str) : Option (Str × Str) :=
  let run := rest2.takeWhile isWordDot
  let rem := rest2.dropWhile isWordDot
  if run.isEmpty then none
  else
    match expectSemiR rem with
    | some after => some (run, after)
    | none =>
      match rem with
      | '*' :: rem2 =>
        if 1 < run.length ∧ run.getLast? = some '.' then
          match expectSemiR rem2 with
          | some after => some (run ++ ['*'], after)
          | none => none
        else none
      | _ => none

/-- One attempt of the import regex `^\s*import\s+([\w.]+(?:\.\*)?)\s*;` at
a position where `^` holds (`m` flag: the string start or just after a
newline): every `\s` may consume newlines, so a match may span lines.
Returns the captured name and the remainder after the match. -/
def matchImportAt (s : Str) : Option (Str × Str) :=
  let s1 := s.dropWhile isSpaceChar
  if startsWithL "import".toList s1 then
    match s1.drop 6 with
    | [] => none
    | c :: rest =>
      if isSpaceChar c then captureFromR ((c :: rest).dropWhile isSpaceChar)
      else none
  else none

/-- The `exec` loop of `extractImports` over the whole text: attempt a match
at every position where the multiline `^` holds (the string start or just
after a line terminator `'\n'`/`'\r'`, tracked by the flag), scanning
forward one character at a time otherwise; after a match, continue right
after the consumed text (`lastIndex`), which sits just after a `;` and is
therefore not a line start.  Every step consumes at least one character, so
the text length is sufficient fuel. -/
def importScan : Nat → Bool → Str → List Str
  | _, _, [] => []
  | 0, _, _ => []
  | fuel + 1, atLineStart, c :: t =>
    if atLineStart then
      match matchImportAt (c :: t) with
      | some (x, rest) => x :: importScan fuel false rest
      | none => importScan fuel (c = '\n' || c = '\r') t
    else importScan fuel (c = '\n' || c = '\r') t

/-- Model of `extractImports` (src/services/javaParser.ts:234-244): all
captured directive names over the whole text, in match order, duplicates
included. -/
def extractImports (sourceCode : Str) : List Str :=
  importScan sourceCode.length true sourceCode

/-- The directive line `import ${imp};` generated by `mergeImports`. -/
def mkImportLine (imp : Str) : Str :=
  "import ".toList ++ imp ++ [';']

/-- Matcher for `/^\s*import\s+/`, the looser test used by the insertion
loop of `mergeImports` (no terminating `;` required). -/
def isImportPrefixLine (l : Str) : Bool :=
  let l1 := l.dropWhile isSpaceChar
  startsWithL "import".toList l1 &&
    match l1.drop 6 with
    | c :: _ => isSpaceChar c
    | [] => false

/-- `class` followed by at least one whitespace character, at the start. -/
def classKw (s : Str) : Bool :=
  startsWithL "class".toList s &&
    match s.drop 5 with
    | c :: _ => isSpaceChar c
    | [] => false

/-- Matcher for `/^\s*(?:public\s+)?class\s+/`, the unit-opening test used by
the insertion loop of `mergeImports`. -/
def isMergeClassLine (l : Str) : Bool :=
  let l1 := l.dropWhile isSpaceChar
  classKw l1 ||
    (startsWithL "public".toList l1 &&
      match l1.drop 6 with
      | c :: rest => isSpaceChar c && classKw ((c :: rest).dropWhile isSpaceChar)
      | [] => false)

/-- The insertion-index loop of `mergeImports`
(src/services/javaParser.ts:262-271): `insertIndex` starts at `0`; each
directive line sets it to that line's index plus one, and the first
unit-opening line breaks the loop. -/
def findInsertGo : Text → Nat → Nat → Nat
  | [], _, acc => acc
  | l :: ls, i, acc =>
    if isImportPrefixLine l then findInsertGo ls (i + 1) (i + 1)
    else if isMergeClassLine l then acc
    else findInsertGo ls (i + 1) acc

/-- The insertion index computed by `mergeImports` for an existing file. -/
def findInsertIndex (lines : Text) : Nat :=
  findInsertGo lines 0 0

/-- The set difference computed by `mergeImports`: the fragment's directives
not already extracted from the existing file (the JS `Set` membership test
is string equality, i.e. list membership here). -/
def importsToAdd (existingCode newCode : Str) : List Str :=
  (extractImports newCode).filter
    (fun imp => !(extractImports existingCode).contains imp)

/-- Model of `mergeImports` (src/services/javaParser.ts:249-278): when the
difference is empty, the existing text is returned as-is (before any split);
otherwise the text is split into lines, the generated directive lines are
spliced at the computed index, and the lines are re-joined. -/
def mergeImports (existingCode newCode : Str) : Str :=
  if (importsToAdd existingCode newCode).isEmpty then existingCode
  else
    let lines := splitLines existingCode
    let insertIndex := findInsertIndex lines
    joinLines (lines.take insertIndex
      ++ (importsToAdd existingCode newCode).map mkImportLine
      ++ lines.drop insertIndex)

/-- Spec-language characterization of the insertion index: the 0-based index
of the last import line occurring before the first unit-opening line (and
before the end of the file), if any. -/
def lastImportBefore : Text → Option Nat
  | [] => none
  | l :: t =>
    if isImportPrefixLine l then
      match lastImportBefore t with
      | some j => some (j + 1)
      | none => some 0
    else if isMergeClassLine l then none
    else (lastImportBefore t).map (· + 1)

/- ### Structural scanner — `extractMethods` (src/services/javaParser.ts:24-132).
The function splits the source on `'\n'` and walks the lines with a small
state machine; the text is modelled as its list of lines. -/

/-- One extracted member signature (`JavaMethod` in the source). -/
structure JavaMethod where
  name : Str
  signature : Str
  returnType : Str
  parameters : Str
  modifiers : List Str
  startLine : Nat
  endLine : Nat
deriving DecidableEq

/-- `kw` followed by at least one whitespace character, at the start. -/
def kwThenSpace (kw : Str) (s : Str) : Bool :=
  startsWithL kw s &&
    match s.drop kw.length with
    | c :: _ => isSpaceChar c
    | [] => false

/-- The access-modifier alternation `(?:public|private|protected)?` of the
class/interface/enum patterns: consume the keyword when present (none of the
three is a prefix of another, so at most one alternative can apply). -/
def afterOptModifier (s : Str) : Str :=
  if startsWithL "public".toList s then s.drop 6
  else if startsWithL "private".toList s then s.drop 7
  else if startsWithL "protected".toList s then s.drop 9
  else s

/-- Matcher for the class-declaration test of the scanner (line 55):
`^\s*(?:public|private|protected)?\s*(?:abstract\s+)?class\s+`. -/
def classDeclLine (l : Str) : Bool :=
  let l2 := (afterOptModifier (l.dropWhile isSpaceChar)).dropWhile isSpaceChar
  let l3 :=
    if startsWithL "abstract".toList l2 &&
        (match l2.drop 8 with | c :: _ => isSpaceChar c | [] => false) then
      (l2.drop 8).dropWhile isSpaceChar
    else l2
  classKw l3

/-- Matcher for `^\s*(?:public|private|protected)?\s*<kw>\s+`. -/
def modThenKw (kw : Str) (l : Str) : Bool :=
  kwThenSpace kw ((afterOptModifier (l.dropWhile isSpaceChar)).dropWhile isSpaceChar)

/-- The `skipPatterns` test of the scanner (lines 33-38): class, interface
and enum openings, and annotation lines `^\s*@`. -/
def isSkipLine (l : Str) : Bool :=
  modThenKw "class".toList l || modThenKw "interface".toList l ||
    modThenKw "enum".toList l || startsWithL "@".toList (l.dropWhile isSpaceChar)

/-- The blank/comment skip of the scanner (line 50): empty after trimming, or
trimmed line starting with `//`, `*` or `/*`. -/
def isCommentOrBlank (l : Str) : Bool :=
  (trimL l).isEmpty || startsWithL "//".toList (trimL l) ||
    startsWithL "*".toList (trimL l) || startsWithL "/*".toList (trimL l)

/-- The modifier keywords of the method regex, in alternation order (none is
a prefix of another). -/
def methodModifierKeywords : List Str :=
  ["public".toList, "private".toList, "protected".toList, "static".toList,
   "final".toList, "abstract".toList, "synchronized".toList, "native".toList,
   "strictfp".toList]

/-- One iteration of `((?:public|...|strictfp)\s+)*`: when some keyword
followed by whitespace starts the input, return the matched group text
(keyword plus its greedy trailing whitespace, the text captured by group 1)
and the rest. -/
def tryModifier (s : Str) : Option (Str × Str) :=
  match methodModifierKeywords.find? (fun kw => kwThenSpace kw s) with
  | some kw =>
    some (kw ++ (s.drop kw.length).takeWhile isSpaceChar,
      (s.drop kw.length).dropWhile isSpaceChar)
  | none => none

/-- `\s+(\w+)\s*\(([^)]*)\)` after a candidate result type: the method name,
then the parameter list up to the first `)`.  Everything after the `)` in
the regex (`\s*(?:throws\s+[\w\s,]+)?\s*\{?`) can always match, so the match
succeeds here. -/
def afterType (typ : Str) (s : Str) : Option (Str × Str × Str) :=
  match s with
  | c :: _ =>
    if isSpaceChar c then
      let s1 := s.dropWhile isSpaceChar
      let n := s1.takeWhile isWordChar
      if n.isEmpty then none
      else
        match (s1.dropWhile isWordChar).dropWhile isSpaceChar with
        | '(' :: s3 =>
          match s3.dropWhile (fun c => !(c = ')')) with
          | ')' :: _ => some (typ, n, s3.takeWhile (fun c => !(c = ')')))
          | _ => none
        | _ => none
    else none
  | [] => none

/-- The greedy optional `(?:\[\])?` after the result type, with fallback. -/
def tryArr (typePart : Str) (s : Str) : Option (Str × Str × Str) :=
  (match s with
   | '[' :: ']' :: rest => afterType (typePart ++ "[]".toList) rest
   | _ => none).orElse (fun _ => afterType typePart s)

/-- The result-type part `(\w+(?:<[^>]+>)?(?:\[\])?)` and everything after
it: a greedy `\w+` run (maximal, since giving characters back leaves a word
character where `<`, `[` or whitespace is required), then the greedy
optional generic group (`[^>]+` runs to the first `>`), with fallback. -/
def finishMethod (s : Str) : Option (Str × Str × Str) :=
  let w := s.takeWhile isWordChar
  if w.isEmpty then none
  else
    let afterW := s.dropWhile isWordChar
    (match afterW with
     | '<' :: g =>
       let inner := g.takeWhile (fun c => !(c = '>'))
       if inner.isEmpty then none
       else
         match g.dropWhile (fun c => !(c = '>')) with
         | '>' :: rest2 => tryArr (w ++ '<' :: inner ++ ['>']) rest2
         | _ => none
     | _ => none).orElse (fun _ => tryArr w afterW)

/-- The modifier loop plus the rest of the method regex, greedily: try the
maximal number of modifier iterations first and fall back one iteration at a
time (the regex `*` is greedy).  Each iteration consumes at least one
character, so the line length is sufficient fuel; group 1 captures the text
of the last iteration taken (empty when none). -/
def matchFromMods : Nat → Str → Str → Option (Str × Str × Str × Str)
  | 0, cap, s => (finishMethod s).map (fun (t : Str × Str × Str) => (cap, t.1, t.2.1, t.2.2))
  | fuel + 1, cap, s =>
    (match tryModifier s with
     | some (c1, r1) => matchFromMods fuel c1 r1
     | none => none).orElse
      (fun _ => (finishMethod s).map (fun (t : Str × Str × Str) => (cap, t.1, t.2.1, t.2.2)))

/-- Matcher for the method-declaration regex of the scanner (line 30):
returns `(group1, returnType, methodName, parameters)` on success. -/
def matchMethodLine (l : Str) : Option (Str × Str × Str × Str) :=
  matchFromMods l.length [] (l.dropWhile isSpaceChar)

/-- The loop state of `extractMethods`: the running brace depth, the member
being tracked (`inMethod`/`currentMethod`, which the source keeps in sync:
`currentMethod` is non-null exactly while `inMethod` is true), whether a
class declaration has been seen, and the members emitted so far. -/
structure ScanState where
  braceCount : Int
  current : Option JavaMethod
  classStarted : Bool
  methods : List JavaMethod
deriving DecidableEq

/-- The initial loop state of `extractMethods`. -/
def initScanState : ScanState :=
  ⟨0, none, false, []⟩

/-- Space-joined modifier list of the signature template. -/
def joinSpace (l : List Str) : Str :=
  List.intercalate [' '] l

/-- The `JavaMethod` record built at a successful declaration match
(src/services/javaParser.ts:84-108): the captured group 1 is trimmed and
split (it is a single keyword plus trailing whitespace, or empty), and the
signature template is assembled and trimmed. -/
def mkJavaMethod (cap1 returnType methodName parameters : Str) (lineNum : Nat) :
    JavaMethod :=
  let modifiers : List Str := if cap1.isEmpty then [] else [trimL cap1]
  { name := methodName
    signature := trimL (joinSpace modifiers ++ ' ' :: returnType ++ ' ' :: methodName
      ++ '(' :: trimL parameters ++ [')'])
    returnType := returnType
    parameters := trimL parameters
    modifiers := modifiers
    startLine := lineNum
    endLine := lineNum }

/-- One iteration of the line loop of `extractMethods`
(src/services/javaParser.ts:45-129), in source order: blank/comment skip,
class-declaration check, skip patterns, brace counting while inside a member
body, and finally the declaration match (only once a class has started),
with the constructor heuristic and the same-line-brace cases. -/
def scanStep (st : ScanState) (line : Str) (lineNum : Nat) : ScanState :=
  if isCommentOrBlank line then st
  else if classDeclLine line then { st with classStarted := true }
  else if isSkipLine line then st
  else
    match st.current with
    | some m =>
      let bc := st.braceCount + (countChar '{' line : Int) - (countChar '}' line : Int)
      if bc ≤ 0 then
        { st with
            braceCount := 0
            current := none
            methods := st.methods ++ [{ m with endLine := lineNum }] }
      else { st with braceCount := bc }
    | none =>
      if st.classStarted then
        match matchMethodLine line with
        | some (cap1, returnType, methodName, parameters) =>
          if returnType = methodName then st
          else
            let m := mkJavaMethod cap1 returnType methodName parameters lineNum
            if line.contains '{' then
              let bc : Int := (countChar '{' line : Int) - (countChar '}' line : Int)
              if 0 < bc then { st with braceCount := bc, current := some m }
              else { st with braceCount := bc, methods := st.methods ++ [m] }
            else { st with braceCount := 0, current := some m }
        | none => st
      else st

/-- The line loop of `extractMethods`: line `i` (0-based) is processed with
`lineNum = i + 1`. -/
def scanLines : Text → Nat → ScanState → ScanState
  | [], _, st => st
  | l :: ls, i, st => scanLines ls (i + 1) (scanStep st l (i + 1))

/-- Model of `extractMethods` (src/services/javaParser.ts:24-132). -/
def extractMethods (sourceCode : Text) : List JavaMethod :=
  (scanLines sourceCode 0 initScanState).methods

/-- The step accepts a new member declaration on this line: all skip checks
fail, no member body is being tracked, a class has started, the line matches
the member-declaration pattern and the constructor heuristic keeps it. -/
def acceptsDecl (st : ScanState) (line : Str) : Bool :=
  !isCommentOrBlank line && !classDeclLine line && !isSkipLine line &&
    st.current.isNone && st.classStarted &&
    (match matchMethodLine line with
     | some (_, returnType, methodName, _) => !(returnType == methodName)
     | none => false)

/-- Instrumentation for the one-signature-per-member property: the line
numbers at which the scan accepts a member declaration, in order. -/
def matchedStartsGo : Text → Nat → ScanState → List Nat
  | [], _, _ => []
  | l :: ls, i, st =>
    (if acceptsDecl st l then [i + 1] else []) ++
      matchedStartsGo ls (i + 1) (scanStep st l (i + 1))

/-- The accepted member-declaration line numbers of a whole scan. -/
def matchedStarts (src : Text) : List Nat :=
  matchedStartsGo src 0 initScanState

/-- The start line of the currently tracked member, if any. -/
def optStarts : Option JavaMethod → List Nat
  | none => []
  | some m => [m.startLine]

/-- Loop invariant of the scan after `n` processed lines: every emitted
member has `startLine ≤ endLine ≤ n` and survives the constructor
heuristic; emitted members are pairwise ordered and disjoint; a currently
tracked member started at a processed line, survives the heuristic, and
starts after every emitted member's end. -/
def ScanInvP (st : ScanState) (n : Nat) : Prop :=
  (∀ m ∈ st.methods, (m.startLine ≤ m.endLine ∧ m.endLine ≤ n) ∧ m.returnType ≠ m.name) ∧
  st.methods.Pairwise (fun a b => a.endLine < b.startLine) ∧
  ∀ m, st.current = some m →
    (m.startLine ≤ n ∧ m.returnType ≠ m.name) ∧ ∀ m' ∈ st.methods, m'.endLine < m.startLine

/-- The end-to-end example unit of the spec (§8). -/
def calcExample : Text :=
  ["package com.example;".toList,
   "public class Calculator \x7b".toList,
   "    public int add(int a, int b) \x7b".toList,
   "        return a + b;".toList,
   "    \x7d".toList,
   "\x7d".toList]

/-- The member the scanner extracts from `calcExample`. -/
def calcAddMethod : JavaMethod :=
  { name := "add".toList
    signature := "public int add(int a, int b)".toList
    returnType := "int".toList
    parameters := "int a, int b".toList
    modifiers := ["public".toList]
    startLine := 3
    endLine := 5 }

/-- A unit text with a member-shaped line but no class-declaration line. -/
def noClassExample : Text :=
  ["int f() \x7b".toList, "\x7d".toList]

/-- Example existing file (no directive lines; unit opening on line 2). -/
def mergeExampleExisting : Str :=
  "package com.example;\npublic class Foo \x7b\n\x7d".toList

/-- Example fragment carrying one new directive. -/
def mergeExampleFragment : Str :=
  "import a.b;".toList

/-- Example existing file with a directive line on line 1. -/
def mergeWitnessExisting : Str :=
  "import x.y;\npublic class A \x7b\n\x7d".toList

/-- Example existing file with no directives, for the duplicate-merge case. -/
def dupExampleExisting : Str :=
  "public class A \x7b\n\x7d".toList

/-- Example fragment whose directive list contains a duplicate. -/
def dupExampleFragment : Str :=
  "import a.b;\nimport a.b;".toList

/-- Existing file whose only directive match spans two lines (the `\s*`
before the `;` consumes the newline). -/
def idemExampleExisting : Str :=
  "import a.b\n;\nx".toList

/-- Fragment for the idempotence failure: its first directive coincides with
the existing file's cross-line match, its second is new. -/
def idemExampleFragment : Str :=
  "import a.b;\nimport c.d;".toList

/-- Spec-language reading of the target-name pattern, for comparison with the
source matcher: join a list of identifier segments with `.`. -/
def dotJoin : List Str → Str
  | [] => []
  | [g] => g
  | g :: rest => g ++ '.' :: dotJoin rest

/-- Spec-language reading: one identifier segment, `[A-Za-z_$][A-Za-z0-9_$]*`. -/
def IsIdentSeg (s : Str) : Prop :=
  ∃ c t, s = c :: t ∧ identStart c = true ∧ ∀ d ∈ t, identRest d = true

/-- Spec-language reading of the whole target-name regex
`^[A-Za-z_$][A-Za-z0-9_$]*(\.[A-Za-z_$][A-Za-z0-9_$]*)*\*?$`: one or more
identifier segments joined by dots, optionally followed by a final `*`. -/
def TargetNameSpec (s : Str) : Prop :=
  ∃ (segs : List Str) (star : Bool), segs ≠ [] ∧ (∀ g ∈ segs, IsIdentSeg g) ∧
    s = dotJoin segs ++ (if star then ['*'] else [])

/-- Spec-language reading of the regex remainder after the first character of
a segment has been consumed: the rest of the segment, then either the end, a
final `*`, or a `.` and the rest of the target name. -/
def TailSpec (s : Str) : Prop :=
  ∃ (u tail : Str), s = u ++ tail ∧ (∀ d ∈ u, identRest d = true) ∧
    (tail = [] ∨ tail = ['*'] ∨ ∃ r, tail = '.' :: r ∧ TargetNameSpec r)

/- ## Theorems -/

/-- Shape of both per-tool branches of `_parseTestResult`: a positive hit
short-circuits to `true`, otherwise the verdict is the absence of all three
negative signals. -/
theorem classifierShape (pos n1 n2 n3 : Bool) :
    ((if pos then true else (!n1 && !n2 && !n3)) = false ↔
      (pos = false ∧ (n1 || n2 || n3) = true)) := by
  cases pos <;> cases n1 <;> cases n2 <;> cases n3 <;> simp

/-- C1 (counterexample): on the output `"build successful build failed"`
tool A's negative signal `"build failed"` is present, yet the classifier
returns a positive verdict — the positive signal `"build successful"` is
checked first and overrides the negatives, contradicting the claim. -/
theorem claim_C1_counterexample :
    parseTestResult "build successful build failed".toList (some .gradle) = true ∧
    gradleNegative (toLowerL "build successful build failed".toList) = true := by
  exact ⟨by decide, by decide⟩

/-- C1 (amended): for each recognized tool, the classifier returns a negative
verdict exactly when no positive signal is present and at least one of that
tool's negative signals occurs in the lower-cased output; a present positive
signal overrides the negative signals, not the other way round. -/
theorem claim_C1 (output : Str) :
    (parseTestResult output (some .gradle) = false ↔
      (gradlePositive (toLowerL output) = false ∧
       gradleNegative (toLowerL output) = true)) ∧
    (parseTestResult output (some .maven) = false ↔
      (mavenPositive (toLowerL output) = false ∧
       mavenNegative (toLowerL output) = true)) := by
  constructor
  · exact classifierShape (gradlePositive (toLowerL output))
      (containsSub (toLowerL output) "build failed".toList)
      (containsSub (toLowerL output) "test failed".toList)
      (containsSub (toLowerL output) "failures:".toList)
  · exact classifierShape (mavenPositive (toLowerL output))
      (containsSub (toLowerL output) "build failure".toList)
      (containsSub (toLowerL output) "tests run:".toList)
      (containsSub (toLowerL output) "failures:".toList)

/-- A segment start plus the tail language gives the full target language. -/
theorem targetName_of_tail {c : Char} {t : Str}
    (hc : identStart c = true) (ht : TailSpec t) :
    TargetNameSpec (c :: t) := by
  obtain ⟨u, tail, rfl, hu, htail⟩ := ht
  have hmem : ∀ g ∈ [c :: u], IsIdentSeg g := by
    intro g hg
    rw [List.mem_singleton] at hg
    subst hg
    exact ⟨c, u, rfl, hc, hu⟩
  rcases htail with rfl | rfl | ⟨r, rfl, segs, star, hne, hsegs, rfl⟩
  · exact ⟨[c :: u], false, by simp, hmem, by simp [dotJoin]⟩
  · exact ⟨[c :: u], true, by simp, hmem, by simp [dotJoin]⟩
  · refine ⟨(c :: u) :: segs, star, by simp, ?_, ?_⟩
    · intro g hg
      rcases List.mem_cons.mp hg with rfl | h
      · exact ⟨c, u, rfl, hc, hu⟩
      · exact hsegs g h
    · cases segs with
      | nil => exact absurd rfl hne
      | cons g₂ gs₂ => simp [dotJoin]

/-- The full target language decomposes into a segment start plus the tail
language. -/
theorem tail_of_targetName {s : Str} (h : TargetNameSpec s) :
    ∃ c t, s = c :: t ∧ identStart c = true ∧ TailSpec t := by
  obtain ⟨segs, star, hne, hsegs, rfl⟩ := h
  cases segs with
  | nil => exact absurd rfl hne
  | cons g gs =>
    obtain ⟨c, u, hgu, hc, hu⟩ := hsegs g (by simp)
    subst hgu
    cases gs with
    | nil =>
      refine ⟨c, u ++ (if star then ['*'] else []), by simp [dotJoin], hc,
        u, (if star then ['*'] else []), rfl, hu, ?_⟩
      cases star with
      | false => exact Or.inl rfl
      | true => exact Or.inr (Or.inl rfl)
    | cons g₂ gs₂ =>
      refine ⟨c, u ++ ('.' :: (dotJoin (g₂ :: gs₂) ++ (if star then ['*'] else []))),
        by simp [dotJoin], hc,
        u, '.' :: (dotJoin (g₂ :: gs₂) ++ (if star then ['*'] else [])), rfl, hu,
        Or.inr (Or.inr ⟨dotJoin (g₂ :: gs₂) ++ (if star then ['*'] else []), rfl,
          g₂ :: gs₂, star, by simp,
          fun g hg => hsegs g (List.mem_cons_of_mem _ hg), rfl⟩)⟩

/-- The two-state scanner recognizes exactly the regex language: state `true`
recognizes the full target language, state `false` the tail language. -/
theorem scanName_iff (s : Str) :
    (scanName true s = true ↔ TargetNameSpec s) ∧
    (scanName false s = true ↔ TailSpec s) := by
  induction s with
  | nil =>
    constructor
    · constructor
      · intro h
        exact absurd h (by decide)
      · intro h
        obtain ⟨c, t, h', -, -⟩ := tail_of_targetName h
        exact absurd h' (by simp)
    · constructor
      · intro _
        exact ⟨[], [], rfl, by simp, Or.inl rfl⟩
      · intro _
        rfl
  | cons c t ih =>
    constructor
    · rw [show scanName true (c :: t) = (identStart c && scanName false t) from rfl,
        Bool.and_eq_true]
      constructor
      · rintro ⟨hc, hscan⟩
        exact targetName_of_tail hc (ih.2.mp hscan)
      · intro h
        obtain ⟨c', t', heq, hc', ht'⟩ := tail_of_targetName h
        injection heq with e1 e2
        subst e1
        subst e2
        exact ⟨hc', ih.2.mpr ht'⟩
    · rw [show scanName false (c :: t)
          = (if identRest c then scanName false t
             else if c = '.' then scanName true t
             else if c = '*' then t.isEmpty
             else false) from rfl]
      by_cases h1 : identRest c = true
      · rw [if_pos h1, ih.2]
        constructor
        · rintro ⟨u, tail, rfl, hu, htail⟩
          refine ⟨c :: u, tail, rfl, ?_, htail⟩
          intro d hd
          rcases List.mem_cons.mp hd with rfl | hd
          · exact h1
          · exact hu d hd
        · rintro ⟨u, tail, heq, hu, htail⟩
          cases u with
          | nil =>
            exfalso
            simp only [List.nil_append] at heq
            rcases htail with rfl | rfl | ⟨r, rfl, -⟩
            · exact absurd heq (by simp)
            · injection heq with e1 _
              rw [e1] at h1
              exact absurd h1 (by decide)
            · injection heq with e1 _
              rw [e1] at h1
              exact absurd h1 (by decide)
          | cons u0 u' =>
            rw [List.cons_append] at heq
            injection heq with e1 e2
            refine ⟨u', tail, e2, ?_, htail⟩
            intro d hd
            exact hu d (List.mem_cons_of_mem _ hd)
      · rw [if_neg h1]
        by_cases h2 : c = '.'
        · subst h2
          rw [if_pos rfl, ih.1]
          constructor
          · intro h
            exact ⟨[], '.' :: t, rfl, by simp, Or.inr (Or.inr ⟨t, rfl, h⟩)⟩
          · rintro ⟨u, tail, heq, hu, htail⟩
            cases u with
            | nil =>
              simp only [List.nil_append] at heq
              rcases htail with rfl | rfl | ⟨r, rfl, hspec⟩
              · exact absurd heq (by simp)
              · exfalso
                injection heq with e1 e2
                exact absurd e1 (by decide)
              · injection heq with e1 e2
                rw [e2]
                exact hspec
            | cons u0 u' =>
              exfalso
              rw [List.cons_append] at heq
              injection heq with e1 _
              have := hu u0 (by simp)
              rw [← e1] at this
              exact absurd this (by decide)
        · rw [if_neg h2]
          by_cases h3 : c = '*'
          · subst h3
            rw [if_pos rfl]
            constructor
            · intro h
              have ht : t = [] := by
                cases t with
                | nil => rfl
                | cons a b => exact absurd h (by simp [List.isEmpty])
              subst ht
              exact ⟨[], ['*'], rfl, by simp, Or.inr (Or.inl rfl)⟩
            · rintro ⟨u, tail, heq, hu, htail⟩
              cases u with
              | nil =>
                simp only [List.nil_append] at heq
                rcases htail with rfl | rfl | ⟨r, rfl, -⟩
                · exact absurd heq (by simp)
                · injection heq with _ e2
                  rw [e2]
                  rfl
                · exfalso
                  injection heq with e1 _
                  exact absurd e1 (by decide)
              | cons u0 u' =>
                exfalso
                rw [List.cons_append] at heq
                injection heq with e1 _
                have := hu u0 (by simp)
                rw [← e1] at this
                exact absurd this (by decide)
          · rw [if_neg h3]
            constructor
            · intro h
              exact absurd h (by decide)
            · rintro ⟨u, tail, heq, hu, htail⟩
              exfalso
              cases u with
              | nil =>
                simp only [List.nil_append] at heq
                rcases htail with rfl | rfl | ⟨r, rfl, -⟩
                · exact absurd heq (by simp)
                · injection heq with e1 _
                  exact h3 e1
                · injection heq with e1 _
                  exact h2 e1
              | cons u0 u' =>
                rw [List.cons_append] at heq
                injection heq with e1 _
                have := hu u0 (by simp)
                rw [← e1] at this
                exact h1 this

/-- C6: target-name validation accepts exactly the strings of the regex
language `^[A-Za-z_$][A-Za-z0-9_$]*(\.[A-Za-z_$][A-Za-z0-9_$]*)*\*?$` of
length at most 256; the injection attempt is rejected before any invocation
is constructed (for every build tool and platform the run refuses with the
validation error), while `com.example.FooTest` and `Foo*` are accepted and
the former flows into a structural argument list. -/
theorem claim_C6 :
    (∀ s : Str, validateTestClassName s = true ↔ (TargetNameSpec s ∧ s.length ≤ 256)) ∧
    validateTestClassName "UserServiceTest; rm -rf /".toList = false ∧
    validateTestClassName "com.example.FooTest".toList = true ∧
    validateTestClassName "Foo*".toList = true ∧
    (∀ (tool : Option BuildTool) (isWin32 : Bool),
      runTestCommand "UserServiceTest; rm -rf /".toList tool isWin32 =
        .error "Invalid test class name. Only valid Java class names are allowed.".toList) ∧
    runTestCommand "com.example.FooTest".toList (some .maven) false =
      .ok ⟨"mvn".toList, ["test".toList, "-Dtest=com.example.FooTest".toList]⟩ := by
  refine ⟨?_, by decide, by decide, by decide, ?_, by rfl⟩
  · intro s
    rw [validateTestClassName, Bool.and_eq_true, (scanName_iff s).1, decide_eq_true_eq]
  · intro tool isWin32
    rfl

/-- C7: the close handler of `_executeCommand` resolves with the combined
`stdout ++ "\n" ++ stderr` exactly when the exit code is zero or some output
was produced, and rejects (with a launch-failure error) exactly when the exit
code is non-zero and no output at all was produced. -/
theorem claim_C7 (code : Int) (stdout stderr : Str) :
    (closeHandler code stdout stderr = .ok (stdout ++ '\n' :: stderr) ↔
      (code = 0 ∨ stdout ≠ [] ∨ stderr ≠ [])) ∧
    ((∃ msg, closeHandler code stdout stderr = .error msg) ↔
      (code ≠ 0 ∧ stdout = [] ∧ stderr = [])) := by
  by_cases h : code ≠ 0 ∧ stdout = [] ∧ stderr = []
  · simp only [closeHandler, if_pos h]
    constructor
    · simp only [reduceCtorEq, false_iff]
      push_neg
      exact h
    · exact ⟨fun _ => h, fun _ => ⟨_, rfl⟩⟩
  · simp only [closeHandler, if_neg h]
    constructor
    · simp only [Except.ok.injEq, true_iff]
      by_contra hc
      push_neg at hc
      exact h ⟨hc.1, hc.2.1, hc.2.2⟩
    · constructor
      · rintro ⟨m, hm⟩
        exact absurd hm (by simp)
      · intro hc
        exact absurd hc h

/-- C8: with no override path, the resolver maps the Maven-layout source path
of `Calculator.java` by rewriting `src/main/java` to `src/test/java` and then
appending the `Test` suffix before the extension. -/
theorem claim_C8 :
    convertToTestPath "src/main/java/com/example/Calculator.java".toList
      = "src/test/java/com/example/Calculator.java".toList ∧
    resolveTestPath "src/main/java/com/example/Calculator.java".toList none
      = "src/test/java/com/example/CalculatorTest.java".toList := by
  exact ⟨by decide, by decide⟩

/- ### Directive-merge lemmas (C2, C4) -/

/-- `contains` on directive names is list membership. -/
theorem contains_true_iff {l : List Str} {a : Str} : l.contains a = true ↔ a ∈ l := by
  simp

/-- A non-nil list is not `isEmpty`. -/
theorem isEmpty_eq_false_of_ne_nil {α : Type} {l : List α} (h : l ≠ []) :
    l.isEmpty = false := by
  cases l with
  | nil => exact absurd rfl h
  | cons a t => rfl

/-- `split('\n')` never yields an empty line list. -/
theorem splitLines_ne_nil (s : Str) : splitLines s ≠ [] := by
  cases s with
  | nil => simp [splitLines]
  | cons c t =>
    by_cases h : c = '\n'
    · simp [splitLines, h]
    · cases hs : splitLines t with
      | nil => exact absurd hs (splitLines_ne_nil t)
      | cons l ls => simp [splitLines, h, hs]

/-- Lines produced by `split('\n')` contain no newline. -/
theorem splitLines_no_newline : ∀ (s : Str), ∀ l ∈ splitLines s, '\n' ∉ l := by
  intro s
  induction s with
  | nil =>
    intro l hl
    rw [show splitLines [] = [[]] from rfl, List.mem_singleton] at hl
    subst hl
    simp
  | cons c t ih =>
    intro l hl
    by_cases h : c = '\n'
    · rw [show splitLines (c :: t) = [] :: splitLines t from by simp [splitLines, h]] at hl
      rcases List.mem_cons.mp hl with rfl | hl
      · simp
      · exact ih l hl
    · cases hs : splitLines t with
      | nil => exact absurd hs (splitLines_ne_nil t)
      | cons l' ls' =>
        rw [show splitLines (c :: t) = (c :: l') :: ls' from by simp [splitLines, h, hs]] at hl
        rcases List.mem_cons.mp hl with rfl | hl
        · intro hmem
          rcases List.mem_cons.mp hmem with hEq | hmem
          · exact h hEq.symm
          · exact ih l' (by rw [hs]; exact List.mem_cons_self _ _) hmem
        · exact ih l (by rw [hs]; exact List.mem_cons_of_mem _ hl)

/-- A newline-free text is a single line. -/
theorem splitLines_of_no_newline : ∀ {l : Str}, '\n' ∉ l → splitLines l = [l] := by
  intro l
  induction l with
  | nil => intro _; rfl
  | cons c t ih =>
    intro h
    have hc : ¬ c = '\n' := fun hEq => h (by rw [hEq]; exact List.mem_cons_self _ _)
    have ht : '\n' ∉ t := fun hmem => h (List.mem_cons_of_mem _ hmem)
    simp [splitLines, hc, ih ht]

/-- Splitting after a newline-free prefix peels off that prefix as a line. -/
theorem splitLines_append_newline : ∀ {l : Str}, '\n' ∉ l → ∀ (r : Str),
    splitLines (l ++ '\n' :: r) = l :: splitLines r := by
  intro l
  induction l with
  | nil =>
    intro _ r
    simp [splitLines]
  | cons c t ih =>
    intro h r
    have hc : ¬ c = '\n' := fun hEq => h (by rw [hEq]; exact List.mem_cons_self _ _)
    have ht : '\n' ∉ t := fun hmem => h (List.mem_cons_of_mem _ hmem)
    rw [List.cons_append]
    simp [splitLines, hc, ih ht r]

/-- `split('\n')` is a left inverse of `join('\n')` on non-empty lists of
newline-free lines. -/
theorem splitLines_joinLines : ∀ (L : List Str), (∀ l ∈ L, '\n' ∉ l) → L ≠ [] →
    splitLines (joinLines L) = L := by
  intro L
  induction L with
  | nil =>
    intro _ h
    exact absurd rfl h
  | cons l L' ih =>
    intro hfree _
    cases L' with
    | nil =>
      rw [show joinLines [l] = l from rfl]
      rw [splitLines_of_no_newline (hfree l (by simp))]
    | cons l₂ L'' =>
      rw [show joinLines (l :: l₂ :: L'') = l ++ '\n' :: joinLines (l₂ :: L'') from rfl]
      rw [splitLines_append_newline (hfree l (by simp)) _]
      rw [ih (fun x hx => hfree x (List.mem_cons_of_mem _ hx)) (by simp)]

/-- Characters of a captured directive name are `[\w.]` characters or the
final `*`. -/
theorem captureFromR_shape {r X rest : Str} (h : captureFromR r = some (X, rest)) :
    ∀ c ∈ X, isWordDot c = true ∨ c = '*' := by
  simp only [captureFromR] at h
  split at h
  · exact absurd h (by simp)
  · split at h
    · injection h with h2
      injection h2 with h3 h4
      subst h3
      intro c hc
      exact Or.inl (List.mem_takeWhile_imp hc)
    · split at h
      · split at h
        · split at h
          · injection h with h2
            injection h2 with h3 h4
            subst h3
            intro c hc
            rcases List.mem_append.mp hc with hc | hc
            · exact Or.inl (List.mem_takeWhile_imp hc)
            · rw [List.mem_singleton] at hc
              exact Or.inr hc
          · exact absurd h (by simp)
        · exact absurd h (by simp)
      · exact absurd h (by simp)

/-- Characters of a name captured at any match position are `[\w.]`
characters or the final `*`. -/
theorem matchImportAt_shape {s X rest : Str} (h : matchImportAt s = some (X, rest)) :
    ∀ c ∈ X, isWordDot c = true ∨ c = '*' := by
  simp only [matchImportAt] at h
  split at h
  · split at h
    · exact absurd h (by simp)
    · split at h
      · exact captureFromR_shape h
      · exact absurd h (by simp)
  · exact absurd h (by simp)

/-- No extracted directive name contains a newline. -/
theorem importScan_no_newline : ∀ (fuel : Nat) (b : Bool) (s : Str),
    ∀ X ∈ importScan fuel b s, '\n' ∉ X := by
  intro fuel
  induction fuel with
  | zero =>
    intro b s X hX
    cases s with
    | nil => exact absurd hX (by simp [importScan])
    | cons c t => exact absurd hX (by simp [importScan])
  | succ fuel ih =>
    intro b s X hX
    cases s with
    | nil => exact absurd hX (by simp [importScan])
    | cons c t =>
      cases b with
      | false => exact ih (c = '\n' || c = '\r') t X (by simpa [importScan] using hX)
      | true =>
        cases hm : matchImportAt (c :: t) with
        | none => exact ih (c = '\n' || c = '\r') t X (by simpa [importScan, hm] using hX)
        | some p =>
          obtain ⟨x, rest⟩ := p
          have hX' : X ∈ x :: importScan fuel false rest := by
            simpa [importScan, hm] using hX
          rcases List.mem_cons.mp hX' with rfl | hX'
          · intro hmem
            rcases matchImportAt_shape hm '\n' hmem with hw | hstar
            · exact absurd hw (by decide)
            · exact absurd hstar (by decide)
          · exact ih false rest X hX'

/-- No directive name of `extractImports` contains a newline. -/
theorem extractImports_no_newline {s X : Str} (h : X ∈ extractImports s) : '\n' ∉ X :=
  importScan_no_newline s.length true s X h

/-- The generated directive line determines its name. -/
theorem mkImportLine_inj {X Y : Str} (h : mkImportLine X = mkImportLine Y) : X = Y :=
  (List.append_inj' (congrArg (List.drop 7) h) rfl).1

/-- The insertion loop computes one past the last import line occurring
before the first unit-opening line (the accumulator when there is none). -/
theorem findInsertGo_eq (ls : Text) : ∀ i acc : Nat,
    findInsertGo ls i acc = (lastImportBefore ls).elim acc (fun j => i + j + 1) := by
  induction ls with
  | nil =>
    intro i acc
    rfl
  | cons l t ih =>
    intro i acc
    by_cases h1 : isImportPrefixLine l = true
    · rw [show findInsertGo (l :: t) i acc = findInsertGo t (i + 1) (i + 1) from by
        simp [findInsertGo, h1], ih]
      rw [show lastImportBefore (l :: t)
          = (match lastImportBefore t with
             | some j => some (j + 1)
             | none => some 0) from by simp [lastImportBefore, h1]]
      cases lastImportBefore t with
      | none => simp
      | some j =>
        show i + 1 + j + 1 = i + (j + 1) + 1
        omega
    · by_cases h2 : isMergeClassLine l = true
      · rw [show findInsertGo (l :: t) i acc = acc from by simp [findInsertGo, h1, h2],
          show lastImportBefore (l :: t) = none from by simp [lastImportBefore, h1, h2]]
        rfl
      · rw [show findInsertGo (l :: t) i acc = findInsertGo t (i + 1) acc from by
          simp [findInsertGo, h1, h2], ih]
        rw [show lastImportBefore (l :: t) = (lastImportBefore t).map (· + 1) from by
          simp [lastImportBefore, h1, h2]]
        cases lastImportBefore t with
        | none => rfl
        | some j =>
          show i + 1 + j + 1 = i + (j + 1) + 1
          omega

/-- The index reported by `lastImportBefore` is an import line of the file. -/
theorem lastImportBefore_get (ls : Text) : ∀ j, lastImportBefore ls = some j →
    ∃ l, ls.get? j = some l ∧ isImportPrefixLine l = true := by
  induction ls with
  | nil =>
    intro j h
    exact absurd h (by simp [lastImportBefore])
  | cons l t ih =>
    intro j h
    by_cases h1 : isImportPrefixLine l = true
    · rw [show lastImportBefore (l :: t)
          = (match lastImportBefore t with
             | some j => some (j + 1)
             | none => some 0) from by simp [lastImportBefore, h1]] at h
      cases ht : lastImportBefore t with
      | none =>
        rw [ht] at h
        obtain rfl : (0 : Nat) = j := by injection h
        exact ⟨l, rfl, h1⟩
      | some j' =>
        rw [ht] at h
        obtain rfl : j' + 1 = j := by injection h
        obtain ⟨l', hl', himp⟩ := ih j' ht
        exact ⟨l', by simpa using hl', himp⟩
    · by_cases h2 : isMergeClassLine l = true
      · rw [show lastImportBefore (l :: t) = none from by simp [lastImportBefore, h1, h2]] at h
        exact absurd h (by simp)
      · rw [show lastImportBefore (l :: t) = (lastImportBefore t).map (· + 1) from by
          simp [lastImportBefore, h1, h2]] at h
        obtain ⟨j', ht, rfl⟩ := Option.map_eq_some'.mp h
        obtain ⟨l', hl', himp⟩ := ih j' ht
        exact ⟨l', by simpa using hl', himp⟩

/-- The merge splits, splices at the computed index and re-joins. -/
theorem mergeImports_splice {e f : Str} (h : importsToAdd e f ≠ []) :
    mergeImports e f
      = joinLines ((splitLines e).take (findInsertIndex (splitLines e))
          ++ (importsToAdd e f).map mkImportLine
          ++ (splitLines e).drop (findInsertIndex (splitLines e))) := by
  rw [mergeImports, if_neg (by rw [isEmpty_eq_false_of_ne_nil h]; exact Bool.false_ne_true)]

/-- Every line of the spliced list is newline-free. -/
theorem mergeImports_splice_lines_free {e f : Str} :
    ∀ l ∈ (splitLines e).take (findInsertIndex (splitLines e))
        ++ (importsToAdd e f).map mkImportLine
        ++ (splitLines e).drop (findInsertIndex (splitLines e)), '\n' ∉ l := by
  intro l hl
  rcases List.mem_append.mp hl with h1 | h1
  · rcases List.mem_append.mp h1 with h2 | h2
    · exact splitLines_no_newline e l (List.mem_of_mem_take h2)
    · obtain ⟨X, hX, rfl⟩ := List.mem_map.mp h2
      intro hmem
      rw [mkImportLine] at hmem
      rcases List.mem_append.mp hmem with h3 | h3
      · rcases List.mem_append.mp h3 with h4 | h4
        · exact absurd h4 (by decide)
        · exact extractImports_no_newline (List.mem_of_mem_filter hX) h4
      · exact absurd h3 (by simp)
  · exact splitLines_no_newline e l (List.mem_of_mem_drop h1)

/-- The merge changes the text exactly when the set difference of directives
is non-empty; equivalently, it is the identity exactly when the difference
is empty. -/
theorem mergeImports_eq_self_iff (e f : Str) :
    mergeImports e f = e ↔ importsToAdd e f = [] := by
  constructor
  · intro hEq
    by_contra hA
    rw [mergeImports_splice hA] at hEq
    have hLne : (splitLines e).take (findInsertIndex (splitLines e))
        ++ (importsToAdd e f).map mkImportLine
        ++ (splitLines e).drop (findInsertIndex (splitLines e)) ≠ [] := by
      intro h0
      rcases List.append_eq_nil.mp h0 with ⟨h1, -⟩
      rcases List.append_eq_nil.mp h1 with ⟨-, h4⟩
      exact (by simp [hA] : (importsToAdd e f).map mkImportLine ≠ []) h4
    have hsplit := congrArg splitLines hEq
    rw [splitLines_joinLines _ mergeImports_splice_lines_free hLne] at hsplit
    have hlen := congrArg List.length hsplit
    simp only [List.length_append, List.length_map] at hlen
    have htd : ((splitLines e).take (findInsertIndex (splitLines e))).length
        + ((splitLines e).drop (findInsertIndex (splitLines e))).length
        = (splitLines e).length := by
      rw [← List.length_append, List.take_append_drop]
    have hApos : 0 < (importsToAdd e f).length := List.length_pos.mpr hA
    omega
  · intro hA
    rw [mergeImports, if_pos (by rw [hA]; rfl)]

/-- C2 (counterexample): the existing file has no directive lines; the claim
predicts insertion immediately before the unit-opening line (after the
`package` line), but the merge inserts at index 0, before the `package`
line. -/
theorem claim_C2_counterexample :
    mergeImports mergeExampleExisting mergeExampleFragment
      = "import a.b;\npackage com.example;\npublic class Foo \x7b\n\x7d".toList ∧
    mergeImports mergeExampleExisting mergeExampleFragment
      ≠ "package com.example;\nimport a.b;\npublic class Foo \x7b\n\x7d".toList := by
  exact ⟨by decide, by decide⟩

/-- C2 (amended): when the fragment contributes at least one new directive,
the merge splits the existing text into lines and splices the generated
lines immediately after the last directive line preceding the first
unit-opening line (index `j`, which is an import line of the file), and
when no directive line precedes the unit-opening line it splices them at
the very start of the file (index 0), not immediately before the
unit-opening line. -/
theorem claim_C2 (e f : Str) (h : importsToAdd e f ≠ []) :
    (lastImportBefore (splitLines e) = none →
      mergeImports e f
        = joinLines ((importsToAdd e f).map mkImportLine ++ splitLines e)) ∧
    (∀ j, lastImportBefore (splitLines e) = some j →
      mergeImports e f
        = joinLines ((splitLines e).take (j + 1)
            ++ (importsToAdd e f).map mkImportLine ++ (splitLines e).drop (j + 1)) ∧
      ∃ l, (splitLines e).get? j = some l ∧ isImportPrefixLine l = true) := by
  constructor
  · intro hnone
    rw [mergeImports_splice h, findInsertIndex, findInsertGo_eq, hnone]
    simp
  · intro j hsome
    refine ⟨?_, lastImportBefore_get (splitLines e) j hsome⟩
    rw [mergeImports_splice h, findInsertIndex, findInsertGo_eq, hsome]
    simp only [Option.elim]
    rw [Nat.zero_add]

/-- C2 (witness): the amended theorem applied to a concrete file whose last
(and only) directive line is line 1 and to a fragment with one new
directive. -/
theorem claim_C2_witness :
    importsToAdd mergeWitnessExisting mergeExampleFragment ≠ [] ∧
    ((lastImportBefore (splitLines mergeWitnessExisting) = none →
      mergeImports mergeWitnessExisting mergeExampleFragment
        = joinLines ((importsToAdd mergeWitnessExisting mergeExampleFragment).map mkImportLine
            ++ splitLines mergeWitnessExisting)) ∧
    (∀ j, lastImportBefore (splitLines mergeWitnessExisting) = some j →
      mergeImports mergeWitnessExisting mergeExampleFragment
        = joinLines ((splitLines mergeWitnessExisting).take (j + 1)
            ++ (importsToAdd mergeWitnessExisting mergeExampleFragment).map mkImportLine
            ++ (splitLines mergeWitnessExisting).drop (j + 1)) ∧
      ∃ l, (splitLines mergeWitnessExisting).get? j = some l ∧
        isImportPrefixLine l = true)) :=
  ⟨by decide, claim_C2 mergeWitnessExisting mergeExampleFragment (by decide)⟩

/-- C4 (counterexample): two failures.  A fragment whose extracted directive
list repeats an absent directive gets it inserted twice, so a single merge
introduces duplicate directive lines.  And merging twice is not merging
once: in `idemExampleExisting` the only match for `a.b` spans two lines
(its `\s*;` consumes the newline), the first merge splices `import c.d;`
between those two lines and thereby destroys the match, so the second merge
re-inserts `import a.b;`. -/
theorem claim_C4_counterexample :
    extractImports dupExampleExisting = [] ∧
    extractImports dupExampleFragment = ["a.b".toList, "a.b".toList] ∧
    (splitLines (mergeImports dupExampleExisting dupExampleFragment)).count
      "import a.b;".toList = 2 ∧
    extractImports idemExampleExisting = ["a.b".toList] ∧
    mergeImports (mergeImports idemExampleExisting idemExampleFragment) idemExampleFragment
      ≠ mergeImports idemExampleExisting idemExampleFragment := by
  refine ⟨by decide, by decide, by decide, by decide, by decide⟩

/-- C4 (amended): the merge returns the existing text unchanged exactly when
the set difference of directives is empty; consequently merging the same
fragment twice changes nothing precisely when the once-merged text still
yields every directive of the fragment — which can fail when a directive
match of the existing text spans multiple lines and is destroyed by the
insertion — and it is a no-op whenever every fragment directive is already
extracted from the existing text; the directive lines inserted by a single
merge are pairwise distinct whenever the fragment's extracted directive
list is duplicate-free (a fragment listing the same new directive twice
gets it inserted twice). -/
theorem claim_C4 :
    (∀ e f : Str, mergeImports e f = e ↔ importsToAdd e f = []) ∧
    (∀ e f : Str, (∀ i ∈ extractImports f, i ∈ extractImports e) →
      mergeImports e f = e) ∧
    (∀ e f : Str,
      mergeImports (mergeImports e f) f = mergeImports e f ↔
        importsToAdd (mergeImports e f) f = []) ∧
    (∀ e f : Str, (extractImports f).Nodup →
      ((importsToAdd e f).map mkImportLine).Nodup) := by
  refine ⟨mergeImports_eq_self_iff, ?_, ?_, ?_⟩
  · intro e f hsub
    rw [mergeImports_eq_self_iff, importsToAdd, List.filter_eq_nil_iff]
    intro i hi
    simp [contains_true_iff, hsub i hi]
  · intro e f
    exact mergeImports_eq_self_iff (mergeImports e f) f
  · intro e f hf
    exact (hf.filter _).map (fun X Y hXY => mkImportLine_inj hXY)

/-- C4 (witness): the amended theorem applied to concrete texts — a no-op
merge of an already-present directive, duplicate-free inserted lines, and
the identity-iff-empty-difference instance. -/
theorem claim_C4_witness :
    (∀ i ∈ extractImports "import x.y;".toList, i ∈ extractImports mergeWitnessExisting) ∧
    mergeImports mergeWitnessExisting "import x.y;".toList = mergeWitnessExisting ∧
    (extractImports mergeExampleFragment).Nodup ∧
    ((importsToAdd mergeWitnessExisting mergeExampleFragment).map mkImportLine).Nodup ∧
    (mergeImports mergeWitnessExisting mergeExampleFragment = mergeWitnessExisting ↔
      importsToAdd mergeWitnessExisting mergeExampleFragment = []) :=
  ⟨by decide, claim_C4.2.1 mergeWitnessExisting "import x.y;".toList (by decide),
   by decide, claim_C4.2.2.2 mergeWitnessExisting mergeExampleFragment (by decide),
   claim_C4.1 mergeWitnessExisting mergeExampleFragment⟩

/- ### Scanner lemmas (C5, C9, C10) -/

/-- Branch: blank/comment lines leave the state unchanged. -/
theorem scanStep_of_comment {st : ScanState} {line : Str} {n : Nat}
    (h1 : isCommentOrBlank line = true) :
    scanStep st line n = st := by
  unfold scanStep
  rw [if_pos h1]

/-- Branch: a class-declaration line only sets `classStarted`. -/
theorem scanStep_of_class {st : ScanState} {line : Str} {n : Nat}
    (h1 : isCommentOrBlank line = false) (h2 : classDeclLine line = true) :
    scanStep st line n = { st with classStarted := true } := by
  unfold scanStep
  rw [if_neg (by simp [h1]), if_pos h2]

/-- Branch: skip-pattern lines leave the state unchanged. -/
theorem scanStep_of_skip {st : ScanState} {line : Str} {n : Nat}
    (h1 : isCommentOrBlank line = false) (h2 : classDeclLine line = false)
    (h3 : isSkipLine line = true) :
    scanStep st line n = st := by
  unfold scanStep
  rw [if_neg (by simp [h1]), if_neg (by simp [h2]), if_pos h3]

/-- Branch: inside a member body the step counts braces and either emits the
member (depth has returned to zero or below) or keeps tracking. -/
theorem scanStep_of_current {st : ScanState} {line : Str} {n : Nat} {m : JavaMethod}
    (h1 : isCommentOrBlank line = false) (h2 : classDeclLine line = false)
    (h3 : isSkipLine line = false) (hc : st.current = some m) :
    scanStep st line n =
      if st.braceCount + (countChar '{' line : Int) - (countChar '}' line : Int) ≤ 0 then
        { st with
            braceCount := 0
            current := none
            methods := st.methods ++ [{ m with endLine := n }] }
      else
        { st with
            braceCount :=
              st.braceCount + (countChar '{' line : Int) - (countChar '}' line : Int) } := by
  unfold scanStep
  rw [if_neg (by simp [h1]), if_neg (by simp [h2]), if_neg (by simp [h3]), hc]

/-- Branch: before any class declaration, nothing is matched. -/
theorem scanStep_of_noclass {st : ScanState} {line : Str} {n : Nat}
    (h1 : isCommentOrBlank line = false) (h2 : classDeclLine line = false)
    (h3 : isSkipLine line = false) (hc : st.current = none)
    (hcs : st.classStarted = false) :
    scanStep st line n = st := by
  unfold scanStep
  rw [if_neg (by simp [h1]), if_neg (by simp [h2]), if_neg (by simp [h3]), hc]
  exact if_neg (by simp [hcs])

/-- Branch: a line that does not match the declaration pattern is ignored. -/
theorem scanStep_of_nomatch {st : ScanState} {line : Str} {n : Nat}
    (h1 : isCommentOrBlank line = false) (h2 : classDeclLine line = false)
    (h3 : isSkipLine line = false) (hc : st.current = none)
    (hcs : st.classStarted = true) (hm : matchMethodLine line = none) :
    scanStep st line n = st := by
  unfold scanStep
  rw [if_neg (by simp [h1]), if_neg (by simp [h2]), if_neg (by simp [h3]), hc,
    if_pos hcs, hm]

/-- Branch: the constructor heuristic discards a candidate whose captured
result type equals its captured name. -/
theorem scanStep_of_ctor {st : ScanState} {line : Str} {n : Nat}
    {cap1 rt nm ps : Str}
    (h1 : isCommentOrBlank line = false) (h2 : classDeclLine line = false)
    (h3 : isSkipLine line = false) (hc : st.current = none)
    (hcs : st.classStarted = true)
    (hm : matchMethodLine line = some (cap1, rt, nm, ps)) (heq : rt = nm) :
    scanStep st line n = st := by
  unfold scanStep
  rw [if_neg (by simp [h1]), if_neg (by simp [h2]), if_neg (by simp [h3]), hc,
    if_pos hcs, hm]
  exact if_pos heq

/-- Branch: an accepted declaration starts tracking or emits a single-line
member, depending on the brace balance of the declaration line. -/
theorem scanStep_of_accept {st : ScanState} {line : Str} {n : Nat}
    {cap1 rt nm ps : Str}
    (h1 : isCommentOrBlank line = false) (h2 : classDeclLine line = false)
    (h3 : isSkipLine line = false) (hc : st.current = none)
    (hcs : st.classStarted = true)
    (hm : matchMethodLine line = some (cap1, rt, nm, ps)) (hne : ¬ rt = nm) :
    scanStep st line n =
      (if line.contains '{' then
        if 0 < (countChar '{' line : Int) - (countChar '}' line : Int) then
          { st with
              braceCount := (countChar '{' line : Int) - (countChar '}' line : Int)
              current := some (mkJavaMethod cap1 rt nm ps n) }
        else
          { st with
              braceCount := (countChar '{' line : Int) - (countChar '}' line : Int)
              methods := st.methods ++ [mkJavaMethod cap1 rt nm ps n] }
      else { st with braceCount := 0, current := some (mkJavaMethod cap1 rt nm ps n) }) := by
  unfold scanStep
  rw [if_neg (by simp [h1]), if_neg (by simp [h2]), if_neg (by simp [h3]), hc,
    if_pos hcs, hm]
  exact if_neg hne

/-- A single step appends exactly the accepted declaration's line number to
the stream of member start lines (emitted plus tracked). -/
theorem scanStep_starts (st : ScanState) (line : Str) (n : Nat) :
    (scanStep st line n).methods.map (fun m => m.startLine)
        ++ optStarts (scanStep st line n).current
      = st.methods.map (fun m => m.startLine) ++ optStarts st.current
        ++ (if acceptsDecl st line then [n] else []) := by
  by_cases h1 : isCommentOrBlank line = true
  · rw [scanStep_of_comment h1, show acceptsDecl st line = false from by
      simp [acceptsDecl, h1]]
    simp
  · rw [Bool.not_eq_true] at h1
    by_cases h2 : classDeclLine line = true
    · rw [scanStep_of_class h1 h2, show acceptsDecl st line = false from by
        simp [acceptsDecl, h2]]
      simp
    · rw [Bool.not_eq_true] at h2
      by_cases h3 : isSkipLine line = true
      · rw [scanStep_of_skip h1 h2 h3, show acceptsDecl st line = false from by
          simp [acceptsDecl, h3]]
        simp
      · rw [Bool.not_eq_true] at h3
        cases hc : st.current with
        | some m =>
          rw [scanStep_of_current h1 h2 h3 hc,
            show acceptsDecl st line = false from by simp [acceptsDecl, hc]]
          by_cases hbc : st.braceCount + (countChar '{' line : Int)
              - (countChar '}' line : Int) ≤ 0
          · rw [if_pos hbc]
            simp [optStarts, hc]
          · rw [if_neg hbc]
            simp [hc]
        | none =>
          by_cases hcs : st.classStarted = true
          · cases hm : matchMethodLine line with
            | none =>
              rw [scanStep_of_nomatch h1 h2 h3 hc hcs hm,
                show acceptsDecl st line = false from by simp [acceptsDecl, hm]]
              simp [hc]
            | some t =>
              obtain ⟨cap1, rt, nm, ps⟩ := t
              by_cases heq : rt = nm
              · rw [scanStep_of_ctor h1 h2 h3 hc hcs hm heq,
                  show acceptsDecl st line = false from by simp [acceptsDecl, hm, heq]]
                simp [hc]
              · have hacc : acceptsDecl st line = true := by
                  simp [acceptsDecl, h1, h2, h3, hc, hcs, hm, heq]
                rw [scanStep_of_accept h1 h2 h3 hc hcs hm heq, hacc]
                by_cases hbr : line.contains '{' = true
                · rw [if_pos hbr]
                  by_cases hpos : 0 < (countChar '{' line : Int) - (countChar '}' line : Int)
                  · rw [if_pos hpos]
                    simp [optStarts, hc, mkJavaMethod]
                  · rw [if_neg hpos]
                    simp [optStarts, hc, mkJavaMethod]
                · rw [if_neg hbr]
                  simp [optStarts, hc, mkJavaMethod]
          · rw [Bool.not_eq_true] at hcs
            rw [scanStep_of_noclass h1 h2 h3 hc hcs,
              show acceptsDecl st line = false from by simp [acceptsDecl, hcs]]
            simp [hc]

/-- The scan invariant only mentions upper bounds, so it is monotone in the
line count. -/
theorem ScanInvP_mono {st : ScanState} {n n' : Nat} (h : n ≤ n') (hi : ScanInvP st n) :
    ScanInvP st n' := by
  obtain ⟨hb, hp, hcur⟩ := hi
  refine ⟨fun m hm => ⟨⟨(hb m hm).1.1, le_trans (hb m hm).1.2 h⟩, (hb m hm).2⟩, hp, ?_⟩
  intro m hm
  exact ⟨⟨le_trans (hcur m hm).1.1 h, (hcur m hm).1.2⟩, (hcur m hm).2⟩

/-- One step preserves the scan invariant at the next line number. -/
theorem scanStep_inv {st : ScanState} {line : Str} {n : Nat} (hi : ScanInvP st n) :
    ScanInvP (scanStep st line (n + 1)) (n + 1) := by
  have hmono : ScanInvP st (n + 1) := ScanInvP_mono (Nat.le_succ n) hi
  obtain ⟨hb, hp, hcur⟩ := hi
  by_cases h1 : isCommentOrBlank line = true
  · rw [scanStep_of_comment h1]
    exact hmono
  · rw [Bool.not_eq_true] at h1
    by_cases h2 : classDeclLine line = true
    · rw [scanStep_of_class h1 h2]
      exact hmono
    · rw [Bool.not_eq_true] at h2
      by_cases h3 : isSkipLine line = true
      · rw [scanStep_of_skip h1 h2 h3]
        exact hmono
      · rw [Bool.not_eq_true] at h3
        cases hc : st.current with
        | some m =>
          rw [scanStep_of_current h1 h2 h3 hc]
          by_cases hbc : st.braceCount + (countChar '{' line : Int)
              - (countChar '}' line : Int) ≤ 0
          · rw [if_pos hbc]
            obtain ⟨⟨hms, hmc⟩, hgap⟩ := hcur m hc
            refine ⟨?_, ?_, ?_⟩
            · intro m' hm'
              rcases List.mem_append.mp hm' with hmem | hmem
              · exact ⟨⟨(hb m' hmem).1.1, le_trans (hb m' hmem).1.2 (Nat.le_succ n)⟩,
                  (hb m' hmem).2⟩
              · rw [List.mem_singleton] at hmem
                subst hmem
                exact ⟨⟨le_trans hms (Nat.le_succ n), le_refl _⟩, hmc⟩
            · rw [List.pairwise_append]
              refine ⟨hp, List.pairwise_singleton _ _, ?_⟩
              intro a ha b hb'
              rw [List.mem_singleton] at hb'
              subst hb'
              exact hgap a ha
            · intro m' hm'
              exact absurd hm' (by simp)
          · rw [if_neg hbc]
            refine ⟨fun m' hm' => ⟨⟨(hb m' hm').1.1,
                le_trans (hb m' hm').1.2 (Nat.le_succ n)⟩, (hb m' hm').2⟩, hp, ?_⟩
            intro m' hm'
            have hsome : some m = some m' := by rw [← hc]; exact hm'
            have hEq : m = m' := by injection hsome
            subst hEq
            exact ⟨⟨le_trans (hcur m hc).1.1 (Nat.le_succ n), (hcur m hc).1.2⟩,
              (hcur m hc).2⟩
        | none =>
          by_cases hcs : st.classStarted = true
          · cases hm : matchMethodLine line with
            | none =>
              rw [scanStep_of_nomatch h1 h2 h3 hc hcs hm]
              exact hmono
            | some t =>
              obtain ⟨cap1, rt, nm, ps⟩ := t
              by_cases heq : rt = nm
              · rw [scanStep_of_ctor h1 h2 h3 hc hcs hm heq]
                exact hmono
              · rw [scanStep_of_accept h1 h2 h3 hc hcs hm heq]
                have hnew : (mkJavaMethod cap1 rt nm ps (n + 1)).startLine = n + 1 := rfl
                have hnewe : (mkJavaMethod cap1 rt nm ps (n + 1)).endLine = n + 1 := rfl
                have hnewr : (mkJavaMethod cap1 rt nm ps (n + 1)).returnType = rt := rfl
                have hnewn : (mkJavaMethod cap1 rt nm ps (n + 1)).name = nm := rfl
                have hTrack : ScanInvP
                    { st with
                        braceCount := (countChar '{' line : Int) - (countChar '}' line : Int)
                        current := some (mkJavaMethod cap1 rt nm ps (n + 1)) } (n + 1) := by
                  refine ⟨hmono.1, hmono.2.1, ?_⟩
                  intro m' hm'
                  obtain rfl : mkJavaMethod cap1 rt nm ps (n + 1) = m' := by injection hm'
                  refine ⟨⟨le_refl _, by rw [hnewr, hnewn]; exact heq⟩, ?_⟩
                  intro m'' hm''
                  rw [hnew]
                  exact Nat.lt_succ_of_le (hb m'' hm'').1.2
                have hEmit : ScanInvP
                    { st with
                        braceCount := (countChar '{' line : Int) - (countChar '}' line : Int)
                        methods := st.methods ++ [mkJavaMethod cap1 rt nm ps (n + 1)] } (n + 1) := by
                  refine ⟨?_, ?_, ?_⟩
                  · intro m' hm'
                    rcases List.mem_append.mp hm' with hmem | hmem
                    · exact ⟨⟨(hb m' hmem).1.1, le_trans (hb m' hmem).1.2 (Nat.le_succ n)⟩,
                        (hb m' hmem).2⟩
                    · rw [List.mem_singleton] at hmem
                      subst hmem
                      exact ⟨⟨le_refl _, le_refl _⟩, by rw [hnewr, hnewn]; exact heq⟩
                  · rw [List.pairwise_append]
                    refine ⟨hp, List.pairwise_singleton _ _, ?_⟩
                    intro a ha b hb'
                    rw [List.mem_singleton] at hb'
                    subst hb'
                    rw [hnew]
                    exact Nat.lt_succ_of_le (hb a ha).1.2
                  · intro m' hm'
                    have : st.current = some m' := hm'
                    rw [hc] at this
                    exact absurd this (by simp)
                by_cases hbr : line.contains '{' = true
                · rw [if_pos hbr]
                  by_cases hpos : 0 < (countChar '{' line : Int) - (countChar '}' line : Int)
                  · rw [if_pos hpos]
                    exact hTrack
                  · rw [if_neg hpos]
                    exact hEmit
                · rw [if_neg hbr]
                  refine ⟨hmono.1, hmono.2.1, ?_⟩
                  intro m' hm'
                  obtain rfl : mkJavaMethod cap1 rt nm ps (n + 1) = m' := by injection hm'
                  refine ⟨⟨le_refl _, by rw [hnewr, hnewn]; exact heq⟩, ?_⟩
                  intro m'' hm''
                  rw [hnew]
                  exact Nat.lt_succ_of_le (hb m'' hm'').1.2
          · rw [Bool.not_eq_true] at hcs
            rw [scanStep_of_noclass h1 h2 h3 hc hcs]
            exact hmono

/-- The whole scan preserves the invariant. -/
theorem scanLines_inv (ls : Text) : ∀ (i : Nat) (st : ScanState),
    ScanInvP st i → ScanInvP (scanLines ls i st) (i + ls.length) := by
  induction ls with
  | nil =>
    intro i st h
    simpa using h
  | cons l t ih =>
    intro i st h
    simp only [List.length_cons]
    rw [show i + (t.length + 1) = (i + 1) + t.length from by omega]
    exact ih (i + 1) (scanStep st l (i + 1)) (scanStep_inv h)

/-- The whole scan accumulates exactly the accepted declaration lines as
member start lines. -/
theorem scanLines_starts (ls : Text) : ∀ (i : Nat) (st : ScanState),
    (scanLines ls i st).methods.map (fun m => m.startLine)
        ++ optStarts (scanLines ls i st).current
      = st.methods.map (fun m => m.startLine) ++ optStarts st.current
        ++ matchedStartsGo ls i st := by
  induction ls with
  | nil =>
    intro i st
    simp [scanLines, matchedStartsGo]
  | cons l t ih =>
    intro i st
    rw [show scanLines (l :: t) i st = scanLines t (i + 1) (scanStep st l (i + 1)) from rfl,
      ih (i + 1) (scanStep st l (i + 1)), scanStep_starts,
      show matchedStartsGo (l :: t) i st
        = (if acceptsDecl st l then [i + 1] else [])
          ++ matchedStartsGo t (i + 1) (scanStep st l (i + 1)) from rfl]
    simp

/-- The initial state satisfies the invariant. -/
theorem initScanState_inv : ScanInvP initScanState 0 := by
  refine ⟨?_, ?_, ?_⟩
  · intro m hm
    exact absurd hm (by simp [initScanState])
  · simp [initScanState]
  · intro m hm
    exact absurd hm (by simp [initScanState])

/-- C5: for any unit whose every member body balances (rendered as: the scan
finishes outside any member body, `current = none`), the scanner emits one
MemberSignature per accepted member declaration — the emitted start lines
are exactly the accepted declaration lines, in order — and every signature
satisfies `startLine ≤ endLine` with pairwise non-overlapping, ordered line
ranges (`a.endLine < b.startLine` for each earlier `a` and later `b`). -/
theorem claim_C5 (src : Text)
    (h : (scanLines src 0 initScanState).current = none) :
    (∀ m ∈ extractMethods src, m.startLine ≤ m.endLine) ∧
    (extractMethods src).Pairwise (fun a b => a.endLine < b.startLine) ∧
    (extractMethods src).map (fun m => m.startLine) = matchedStarts src := by
  have hinv := scanLines_inv src 0 initScanState initScanState_inv
  have hst := scanLines_starts src 0 initScanState
  rw [h] at hst
  refine ⟨fun m hm => ((hinv.1 m hm).1).1, hinv.2.1, ?_⟩
  rw [extractMethods, matchedStarts]
  simpa [optStarts, initScanState] using hst

/-- C5 (witness): the amended-free theorem applied to the spec's §8 example
unit, whose single member `add` spans lines 3-5. -/
theorem claim_C5_witness :
    (scanLines calcExample 0 initScanState).current = none ∧
    extractMethods calcExample = [calcAddMethod] ∧
    ((∀ m ∈ extractMethods calcExample, m.startLine ≤ m.endLine) ∧
     (extractMethods calcExample).Pairwise (fun a b => a.endLine < b.startLine) ∧
     (extractMethods calcExample).map (fun m => m.startLine) = matchedStarts calcExample) :=
  ⟨by decide, by decide, claim_C5 calcExample (by decide)⟩

/-- C9: a candidate whose captured result-type token equals its captured
name token is discarded by the constructor heuristic: no emitted member ever
has `returnType = name`. -/
theorem claim_C9 (src : Text) (m : JavaMethod) (h : m ∈ extractMethods src) :
    m.returnType ≠ m.name :=
  ((scanLines_inv src 0 initScanState initScanState_inv).1 m h).2

/-- C9 (witness): the theorem applied to the member extracted from the §8
example unit. -/
theorem claim_C9_witness :
    calcAddMethod ∈ extractMethods calcExample ∧
    calcAddMethod.returnType ≠ calcAddMethod.name :=
  ⟨by decide, claim_C9 calcExample calcAddMethod (by decide)⟩

/-- One step from a class-less, member-less state on a non-class line is the
identity. -/
theorem scanStep_noclass_id {st : ScanState} {line : Str} {n : Nat}
    (h : classDeclLine line = false) (hcs : st.classStarted = false)
    (hc : st.current = none) :
    scanStep st line n = st := by
  by_cases h1 : isCommentOrBlank line = true
  · exact scanStep_of_comment h1
  · rw [Bool.not_eq_true] at h1
    by_cases h3 : isSkipLine line = true
    · exact scanStep_of_skip h1 h h3
    · rw [Bool.not_eq_true] at h3
      exact scanStep_of_noclass h1 h h3 hc hcs

/-- With no class-declaration line anywhere, the whole scan never leaves the
initial state. -/
theorem scanLines_noclass (ls : Text) : ∀ (i : Nat) (st : ScanState),
    (∀ l ∈ ls, classDeclLine l = false) →
    st.classStarted = false → st.current = none →
    scanLines ls i st = st := by
  induction ls with
  | nil =>
    intro i st _ _ _
    rfl
  | cons l t ih =>
    intro i st hall hcs hc
    rw [show scanLines (l :: t) i st = scanLines t (i + 1) (scanStep st l (i + 1)) from rfl,
      scanStep_noclass_id (hall l (by simp)) hcs hc]
    exact ih (i + 1) st (fun l' hl' => hall l' (by simp [hl'])) hcs hc

/-- C10: when no line of the input matches the class-declaration pattern,
the scanner returns the empty member list — no MemberSignature is ever
emitted before a class-declaration line has been seen, even if lines
matching the member-declaration pattern occur in the text. -/
theorem claim_C10 (src : Text) (h : ∀ l ∈ src, classDeclLine l = false) :
    extractMethods src = [] := by
  rw [extractMethods, scanLines_noclass src 0 initScanState h rfl rfl]
  rfl

/-- C10 (witness): the theorem applied to a text whose first line matches
the member-declaration pattern but which contains no class declaration. -/
theorem claim_C10_witness :
    (∀ l ∈ noClassExample, classDeclLine l = false) ∧
    (matchMethodLine "int f() \x7b".toList).isSome = true ∧
    extractMethods noClassExample = [] :=
  ⟨by decide, by decide, claim_C10 noClassExample (by decide)⟩

end TestAutoEvermation
